import Mathlib

/-!
Shallow embedding of the `octothorp` octree library (src/src/node.rs,
src/src/octree.rs, src/src/types.rs).

Modelling conventions:
* `u16` coordinates and dimensions become `Nat`.  The source only ever
  compares coordinates, divides dimensions by two, and subtracts a component
  after comparing it as `≥`, so no wrap-around can occur and `Nat` is exact.
* `Vec<Option<OctreeNode<T>>>` becomes `List (Option (OctreeNode T))`.  Every
  list the code builds has exactly 8 slots (`no_children`), and every index
  produced by `get_child_loc` is `< 8`, so the out-of-range behaviour of the
  total Lean lookups (`none` / no-op) is never exercised.
* `OctreeNode::insert` is the only recursion that is not structural in the
  tree (it recurses into freshly made nodes), so it takes explicit fuel; one
  unit of fuel is consumed per visited node.  `IRes.outOfFuel` means the
  recursion descended deeper than the given fuel, `IRes.fatal` models a Rust
  panic (`Option::unwrap` on `None` inside `try_desimplify`).
* `at`, `take`, `node_as_ref` and the simplification passes are structurally
  recursive on the tree, hence total Lean functions.
* generic payload `T: Copy + PartialEq` becomes `T : Type` with
  `[DecidableEq T]` where the source compares values.
-/

/-- `NodeLoc` (src/src/types.rs): a location inside the octree, mutated in
place while descending.  The pure embedding threads updated copies instead. -/
structure NodeLoc where
  x : Nat
  y : Nat
  z : Nat
deriving DecidableEq, Repr

/-- `OctreeNode<T>::get_child_loc` (src/src/node.rs): picks the child octant
for a location at a node of the given stored dimension and returns the
location translated into the child's frame.  Octant numbers follow the
`ChildLoc` enum: BaseRearLeft=0, BaseRearRight=1, BaseFrontRight=2,
BaseFrontLeft=3, TopRearLeft=4, TopRearRight=5, TopFrontRight=6,
TopFrontLeft=7.  Subtraction only happens after a `≥` comparison, exactly as
in the source, so `Nat` subtraction is exact. -/
def getChildLoc (dimension : Nat) (loc : NodeLoc) : Nat × NodeLoc :=
  let comparator := dimension / 2
  if loc.z < comparator then
    if loc.y < comparator then
      if loc.x < comparator then (0, loc)
      else (1, { loc with x := loc.x - comparator })
    else
      if loc.x < comparator then (3, { loc with y := loc.y - comparator })
      else (2, { loc with y := loc.y - comparator, x := loc.x - comparator })
  else
    if loc.y < comparator then
      if loc.x < comparator then (4, { loc with z := loc.z - comparator })
      else (5, { loc with z := loc.z - comparator, x := loc.x - comparator })
    else
      if loc.x < comparator then
        (7, { loc with z := loc.z - comparator, y := loc.y - comparator })
      else
        (6, { loc with z := loc.z - comparator, y := loc.y - comparator,
                       x := loc.x - comparator })

/-- `OctreeNode<T>` (src/src/node.rs): stored dimension (edge length of the
region divided by two at construction, see `new`), leaf flag, simplified
(collapsed) flag, 8 optional children, optional payload. -/
inductive OctreeNode (T : Type) where
  | mk (dimension : Nat) (leaf : Bool) (simplified : Bool)
       (children : List (Option (OctreeNode T))) (data : Option T)

/-- Field accessor for `dimension` (also `OctreeNode::dimension()`). -/
def OctreeNode.dimension {T : Type} : OctreeNode T → Nat
  | .mk d _ _ _ _ => d

/-- Field accessor for `leaf` (also `OctreeNode::leaf()`). -/
def OctreeNode.leaf {T : Type} : OctreeNode T → Bool
  | .mk _ l _ _ _ => l

/-- Field accessor for `simplified`. -/
def OctreeNode.simplified {T : Type} : OctreeNode T → Bool
  | .mk _ _ s _ _ => s

/-- Field accessor for `children` (also `OctreeNode::children()`). -/
def OctreeNode.children {T : Type} : OctreeNode T → List (Option (OctreeNode T))
  | .mk _ _ _ ch _ => ch

/-- Field accessor for `data` (also `OctreeNode::get()`). -/
def OctreeNode.data {T : Type} : OctreeNode T → Option T
  | .mk _ _ _ _ dat => dat

/-- Replaces the `data` field (models `self.data = ...` / `self.data.take()`). -/
def OctreeNode.setData {T : Type} : OctreeNode T → Option T → OctreeNode T
  | .mk d l s ch _, dat => .mk d l s ch dat

/-- `no_children::<T>()` (src/src/node.rs): eight empty child slots. -/
def noChildren (T : Type) : List (Option (OctreeNode T)) :=
  [none, none, none, none, none, none, none, none]

/-- Reading `self.children[i]` (src indexing always happens at `i < 8` on an
8-slot vector; the `[]`-case is unreachable in the modelled executions). -/
def childAt {T : Type} : List (Option (OctreeNode T)) → Nat → Option (OctreeNode T)
  | [], _ => none
  | c :: _, 0 => c
  | _ :: rest, n + 1 => childAt rest n

/-- Writing `self.children[i] = x` (again only ever used at `i < 8`). -/
def setChild {T : Type} :
    List (Option (OctreeNode T)) → Nat → Option (OctreeNode T) →
    List (Option (OctreeNode T))
  | [], _, _ => []
  | _ :: rest, 0, x => x :: rest
  | c :: rest, n + 1, x => c :: setChild rest n x

/-- `OctreeNode::new(curr_dimension, data)`: fresh leaf seeded with `data`,
stored dimension is the parent's dimension halved. -/
def OctreeNode.new {T : Type} (currDimension : Nat) (data : T) : OctreeNode T :=
  .mk (currDimension / 2) true false (noChildren T) (some data)

/-- `OctreeNode::construct_root(dimension)`: valueless leaf root. -/
def OctreeNode.construct_root (T : Type) (dimension : Nat) : OctreeNode T :=
  .mk dimension true false (noChildren T) none

/-- `OctreeNode::make_leaf(state)`: sets the leaf flag; when set to `true`
the children are cleared. -/
def OctreeNode.make_leaf {T : Type} : OctreeNode T → Bool → OctreeNode T
  | .mk d _ s ch dat, b => if b then .mk d b s (noChildren T) dat else .mk d b s ch dat

/-- The loop body of `OctreeNode::try_simplify`: `true` iff every child slot
holds a node whose `data` equals the candidate value (an absent child, or a
child with no value, or a differing value, aborts the scan). -/
def simplifyCheck {T : Type} [DecidableEq T] (v : T) :
    List (Option (OctreeNode T)) → Bool
  | [] => true
  | none :: _ => false
  | some c :: rest =>
    match c.data with
    | none => false
    | some nd => if nd = v then simplifyCheck v rest else false

/-- `OctreeNode::try_simplify(data)`: if all eight children carry `data`, the
node adopts the value, becomes a leaf (children cleared) and is marked
simplified; otherwise it is unchanged. -/
def OctreeNode.try_simplify {T : Type} [DecidableEq T] :
    OctreeNode T → T → OctreeNode T
  | .mk d l s ch dat, v =>
    if simplifyCheck v ch then .mk d true true (noChildren T) (some v)
    else .mk d l s ch dat

/-- `OctreeNode::try_desimplify(node, child_loc)`: every octant other than
`child_loc` is filled with a fresh node carrying `self.data.unwrap()`, the
updated child is stored at `child_loc`, and the node becomes
non-leaf/non-simplified/valueless.  `none` models the `unwrap` panic when
`self.data` is `None` (the loop unwraps at the first index `≠ child_loc`,
which always exists on the 8-slot vector). -/
def OctreeNode.try_desimplify {T : Type} :
    OctreeNode T → OctreeNode T → Nat → Option (OctreeNode T)
  | .mk d _ _ ch dat, node, childLoc =>
    match dat with
    | none => none
    | some d0 =>
      some (.mk d false false
        (setChild (List.replicate ch.length (some (OctreeNode.new d d0)))
          childLoc (some node)) none)

mutual

/-- `OctreeNode::at(loc)` (named `at'` because `at` is a Lean keyword):
absent child yields `none`; a leaf child yields its `data`; otherwise
recurse with the translated location. -/
def OctreeNode.at' {T : Type} : OctreeNode T → NodeLoc → Option T
  | .mk d _ _ ch _, loc =>
    OctreeNode.atChildren ch (getChildLoc d loc).1 (getChildLoc d loc).2

/-- Walks to child slot `i` of the list and applies the `at` step there. -/
def OctreeNode.atChildren {T : Type} :
    List (Option (OctreeNode T)) → Nat → NodeLoc → Option T
  | [], _, _ => none
  | none :: _, 0, _ => none
  | some child :: _, 0, loc =>
    if child.leaf then child.data else OctreeNode.at' child loc
  | _ :: rest, n + 1, loc => OctreeNode.atChildren rest n loc

end

mutual

/-- `OctreeNode::take(loc)`: same traversal as `at`, but the reached leaf's
`data` is taken (read and replaced by `none`); returns the value and the
updated node. -/
def OctreeNode.take {T : Type} : OctreeNode T → NodeLoc → Option T × OctreeNode T
  | .mk d l s ch dat, loc =>
    let r := OctreeNode.takeChildren ch (getChildLoc d loc).1 (getChildLoc d loc).2
    (r.1, .mk d l s r.2 dat)

/-- Walks to child slot `i` and applies the `take` step there, rebuilding the
child list with the mutated child. -/
def OctreeNode.takeChildren {T : Type} :
    List (Option (OctreeNode T)) → Nat → NodeLoc →
    Option T × List (Option (OctreeNode T))
  | [], _, _ => (none, [])
  | none :: rest, 0, _ => (none, none :: rest)
  | some child :: rest, 0, loc =>
    if child.leaf then (child.data, some (child.setData none) :: rest)
    else
      let r := OctreeNode.take child loc
      (r.1, some r.2 :: rest)
  | c :: rest, n + 1, loc =>
    let r := OctreeNode.takeChildren rest n loc
    (r.1, c :: r.2)

end

mutual

/-- `OctreeNode::node_as_ref(loc)`: returns the leaf node owning the
location, or `none` when the path is incomplete. -/
def OctreeNode.node_as_ref {T : Type} : OctreeNode T → NodeLoc → Option (OctreeNode T)
  | .mk d _ _ ch _, loc =>
    OctreeNode.refChildren ch (getChildLoc d loc).1 (getChildLoc d loc).2

/-- Walks to child slot `i` and applies the `node_as_ref` step there. -/
def OctreeNode.refChildren {T : Type} :
    List (Option (OctreeNode T)) → Nat → NodeLoc → Option (OctreeNode T)
  | [], _, _ => none
  | none :: _, 0, _ => none
  | some child :: _, 0, loc =>
    if child.leaf then some child else OctreeNode.node_as_ref child loc
  | _ :: rest, n + 1, loc => OctreeNode.refChildren rest n loc

end

/-- The loop of `OctreeNode::try_simplify_none`: `true` iff every child slot
is absent or holds a node whose `data` field is `None`.  Note that it only
inspects the direct children's `data` fields, exactly as the source does. -/
def noneCheck {T : Type} : List (Option (OctreeNode T)) → Bool
  | [] => true
  | none :: rest => noneCheck rest
  | some c :: rest => if c.data.isSome then false else noneCheck rest

/-- `OctreeNode::try_simplify_none()`: if no direct child holds a value, the
node becomes a valueless leaf, is marked simplified, and its children are
cleared. -/
def OctreeNode.try_simplify_none {T : Type} : OctreeNode T → OctreeNode T
  | .mk d l s ch dat =>
    if noneCheck ch then .mk d true true (noChildren T) none
    else .mk d l s ch dat

/-- `OctreeNode::insert_none(loc)`: take the value at `loc` (discarding it),
then run the collapse-on-empty pass at this node. -/
def OctreeNode.insert_none {T : Type} (self : OctreeNode T) (loc : NodeLoc) :
    OctreeNode T :=
  (self.take loc).2.try_simplify_none

/-- Result of the fuelled `insert`: `ok` carries the updated node, `fatal`
models a Rust panic, `outOfFuel` means the recursion needed more fuel. -/
inductive IRes (T : Type) where
  | ok (node : OctreeNode T)
  | fatal
  | outOfFuel

/-- `OctreeNode::insert(loc, data)` (src/src/node.rs lines 112-138), with
explicit fuel (one unit per visited node).  Step by step:
the child octant is computed; the occupying child is reused when present and
the node is not simplified, otherwise a fresh node seeded with `data` is
made; a non-simplified leaf is converted to an internal valueless node; at
stored dimension 2 the child is forced to a terminal leaf, otherwise insert
recurses into it; a simplified node whose value differs from `data`
desimplifies (which can panic), otherwise the child is stored back; finally
`try_simplify` runs.  The Rust code removes the reused child from its slot
with `Vec::take`, but that slot is unconditionally overwritten (by the
stored-back child or by `try_desimplify`) before anything reads it again, so
the embedding reads it non-destructively. -/
def OctreeNode.insert {T : Type} [DecidableEq T] :
    Nat → OctreeNode T → NodeLoc → T → IRes T
  | 0, _, _, _ => .outOfFuel
  | fuel + 1, .mk dim lf sp ch dat, loc, v =>
    let cl := (getChildLoc dim loc).1
    let loc2 := (getChildLoc dim loc).2
    let node0 :=
      match childAt ch cl with
      | some c => if sp then OctreeNode.new dim v else c
      | none => OctreeNode.new dim v
    let lf1 := if lf && !sp then false else lf
    let dat1 := if lf && !sp then none else dat
    let step :=
      if dim = 2 then IRes.ok (node0.make_leaf true)
      else OctreeNode.insert fuel node0 loc2 v
    match step with
    | .outOfFuel => .outOfFuel
    | .fatal => .fatal
    | .ok node1 =>
      if sp = true ∧ ¬dat1 = some v then
        match OctreeNode.try_desimplify (.mk dim lf1 sp ch dat1) node1 cl with
        | none => IRes.fatal
        | some s => IRes.ok (s.try_simplify v)
      else
        IRes.ok ((OctreeNode.mk dim lf1 sp (setChild ch cl (some node1)) dat1).try_simplify v)

/-- Helper for `floorSqrt`: linear search for the largest `k` with
`k * k ≤ n`, with enough fuel to reach it. -/
def floorSqrtGo (n : Nat) : Nat → Nat → Nat
  | 0, k => k
  | fuel + 1, k => if (k + 1) * (k + 1) ≤ n then floorSqrtGo n fuel (k + 1) else k

/-- The integer part of `f64::from(n).sqrt()` as computed by
`Octree::<T>::new` (src/src/octree.rs).  For the `u16` inputs of the source,
the correctly rounded double square root of `n` has zero fractional part
exactly when `n` is a perfect square (an irrational `√n` with `n < 2¹⁶` is at
distance `≥ 2⁻⁹` from the nearest integer, far above double rounding error),
and then `depth as u8` is this integer.  So the float test
`remainder == 0.0` is the perfect-square test used below. -/
def floorSqrt (n : Nat) : Nat := floorSqrtGo n n 0

/-- `Octree<T>` (src/src/octree.rs): dimension, max depth and the root node. -/
structure Octree (T : Type) where
  dimension : Nat
  maxDepth : Nat
  root : OctreeNode T

/-- `Octree::<T>::new(dimension)`: accepts the dimension iff its (float)
square root is an exact integer below `u8::MAX`; stores that integer as
`max_depth` and a valueless leaf root. -/
def Octree.new (T : Type) (dimension : Nat) : Option (Octree T) :=
  let depth := floorSqrt dimension
  if depth * depth = dimension ∧ depth < 255 then
    some ⟨dimension, depth, OctreeNode.construct_root T dimension⟩
  else none

/-- `Octree::contains_loc`: the location is strictly inside the edge on all
three axes. -/
def Octree.containsLoc {T : Type} (t : Octree T) (loc : NodeLoc) : Bool :=
  decide (loc.x < t.dimension) && decide (loc.y < t.dimension) &&
    decide (loc.z < t.dimension)

/-- Result of the top-level insert: `ok` carries the updated tree, `err`
models `Err("Error inserting node: location not bounded by octree")`,
`fatal`/`outOfFuel` lift the node-level outcomes. -/
inductive TreeRes (T : Type) where
  | ok (t : Octree T)
  | err
  | fatal
  | outOfFuel

/-- `Octree::insert(loc, data)`: bounds check at the handle, then delegate to
the root node (fuel threaded through for the node recursion). -/
def Octree.insert {T : Type} [DecidableEq T] (fuel : Nat) (t : Octree T)
    (loc : NodeLoc) (v : T) : TreeRes T :=
  if t.containsLoc loc then
    match OctreeNode.insert fuel t.root loc v with
    | .ok r => .ok ⟨t.dimension, t.maxDepth, r⟩
    | .fatal => .fatal
    | .outOfFuel => .outOfFuel
  else .err

/-- `Octree::at(loc)`: no bounds check; delegate to the root node. -/
def Octree.at' {T : Type} (t : Octree T) (loc : NodeLoc) : Option T :=
  t.root.at' loc

/-- `Octree::node_as_ref(loc)`: delegate to the root node. -/
def Octree.node_as_ref {T : Type} (t : Octree T) (loc : NodeLoc) :
    Option (OctreeNode T) :=
  t.root.node_as_ref loc

/-- Modelled from the spec: the `Octree::take` wrapper is exercised by the
tests in src/src/lib.rs but absent from src/src/octree.rs.  Per spec §4.5 and
§7 it performs the same traversal as the lookup and never fails, so like
`Octree::at` it delegates straight to the root node (`OctreeNode::take`,
which is in src). -/
def Octree.take {T : Type} (t : Octree T) (loc : NodeLoc) :
    Option T × Octree T :=
  let r := t.root.take loc
  (r.1, ⟨t.dimension, t.maxDepth, r.2⟩)

/-- Modelled from the spec: the `Octree::insert_none` wrapper is exercised by
the tests in src/src/lib.rs but absent from src/src/octree.rs.  Per spec §4.6
it performs the take-then-collapse pass of `OctreeNode::insert_none` (which
is in src) starting at the root. -/
def Octree.insert_none {T : Type} (t : Octree T) (loc : NodeLoc) : Octree T :=
  ⟨t.dimension, t.maxDepth, t.root.insert_none loc⟩

/-- Runs a list of inserts left to right with the given fuel per insert;
`none` as soon as one insert does not return `ok`. -/
def insertSeq {T : Type} [DecidableEq T] (fuel : Nat) (t : Octree T) :
    List (NodeLoc × T) → Option (Octree T)
  | [] => some t
  | (loc, v) :: rest =>
    match Octree.insert fuel t loc v with
    | .ok t1 => insertSeq fuel t1 rest
    | _ => none

mutual

/-- Coherence of the stored dimensions: every present child's stored
dimension is its parent's stored dimension halved (this is how both
`OctreeNode::new` and `try_desimplify` build children). -/
def dimsOk {T : Type} : OctreeNode T → Bool
  | .mk dim _ _ ch _ => dimsOkList dim ch

/-- List part of `dimsOk`. -/
def dimsOkList {T : Type} : Nat → List (Option (OctreeNode T)) → Bool
  | _, [] => true
  | dim, none :: rest => dimsOkList dim rest
  | dim, some c :: rest =>
    decide (c.dimension = dim / 2) && dimsOk c && dimsOkList dim rest

end

/-- The tree `Octree::<u8>::new(4)` builds (values modelled as `Nat`):
`floorSqrt 4 = 2`, so dimension 4 is accepted with `max_depth = 2`. -/
def octree4 : Octree Nat := ⟨4, 2, OctreeNode.construct_root Nat 4⟩

/-- The tree `Octree::<u8>::new(16)` builds: `max_depth = 4`. -/
def octree16 : Octree Nat := ⟨16, 4, OctreeNode.construct_root Nat 16⟩

/-- The tree `Octree::<u8>::new(1)` builds: dimension 1 is a perfect square,
so it is accepted, with `max_depth = 1`. -/
def octree1 : Octree Nat := ⟨1, 1, OctreeNode.construct_root Nat 1⟩

/-- All 64 unit-voxel coordinates of a dimension-4 volume. -/
def cube4 : List NodeLoc :=
  (List.range 4).flatMap fun x =>
    (List.range 4).flatMap fun y =>
      (List.range 4).map fun z => ⟨x, y, z⟩

/-- Insert the value 1 at every voxel of the dimension-4 volume. -/
def cube4val1 : List (NodeLoc × Nat) := cube4.map fun l => (l, 1)

/-- The dimension-4 tree after uniformly filling all 64 voxels with 1; the
whole tree collapses into a simplified root leaf. -/
def collapsedTree4 : Octree Nat := (insertSeq 9 octree4 cube4val1).getD octree4

/-- `collapsedTree4` after inserting the differing value 2 at `(0,0,0)`
(desimplification of the fully collapsed root). -/
def c2After : Octree Nat :=
  match Octree.insert 9 collapsedTree4 ⟨0, 0, 0⟩ 2 with
  | .ok t => t
  | _ => collapsedTree4

/-- `collapsedTree4` after re-inserting the same value 1 at `(0,0,0)`. -/
def c5After : Octree Nat :=
  match Octree.insert 9 collapsedTree4 ⟨0, 0, 0⟩ 1 with
  | .ok t => t
  | _ => collapsedTree4

/-- The fresh dimension-4 tree after one insert of 7 at `(0,0,0)`. -/
def c8Tree1 : Octree Nat :=
  match Octree.insert 9 octree4 ⟨0, 0, 0⟩ 7 with
  | .ok t => t
  | _ => octree4

/-- Dimension-4 tree holding 7 at `(0,0,0)` and 9 at `(3,3,3)`. -/
def c3Tree : Octree Nat :=
  (insertSeq 9 octree4 [(⟨0, 0, 0⟩, 7), (⟨3, 3, 3⟩, 9)]).getD octree4

/-- The fresh dimension-4 tree after a single `insert_none` at `(0,0,0)`:
`take` finds no child and `try_simplify_none` marks the untouched root
simplified. -/
def emptyCollapsed4 : Octree Nat := octree4.insert_none ⟨0, 0, 0⟩

/-- The seven inserts of 255 filling all but `(1,1,1)` of the edge-2 region
at the origin of the dimension-16 tree (spec §8 concrete scenario). -/
def sevenInserts : List (NodeLoc × Nat) :=
  [(⟨0, 0, 0⟩, 255), (⟨0, 0, 1⟩, 255), (⟨0, 1, 0⟩, 255), (⟨0, 1, 1⟩, 255),
   (⟨1, 0, 0⟩, 255), (⟨1, 0, 1⟩, 255), (⟨1, 1, 0⟩, 255)]

/-- The dimension-16 tree after `sevenInserts`. -/
def c7t7 : Octree Nat := (insertSeq 9 octree16 sevenInserts).getD octree16

/-- `c7t7` after the eighth insert of 255 at `(1,1,1)`. -/
def c7t8 : Octree Nat :=
  match Octree.insert 9 c7t7 ⟨1, 1, 1⟩ 255 with
  | .ok t => t
  | _ => c7t7

/-- An internal dimension-4 node whose octant 0 holds a collapsed edge-2 leaf
with value 5 (the shape produced by eight equal inserts under that octant). -/
def c10Parent : OctreeNode Nat :=
  .mk 4 false false
    (setChild (noChildren Nat) 0 (some (.mk 2 true true (noChildren Nat) (some 5))))
    none

/-- The node a collapsed edge-2 region (value 1) becomes after inserting the
differing value 2 at `(0,0,0)`. -/
def c2Unit : OctreeNode Nat :=
  match OctreeNode.insert 2
      (.mk 2 true true (noChildren Nat) (some 1)) ⟨0, 0, 0⟩ 2 with
  | .ok X' => X'
  | _ => .mk 2 true true (noChildren Nat) (some 1)

/-!  Helper lemmas about the embedded operations. -/

@[simp] theorem OctreeNode.dimension_mk {T : Type} (d : Nat) (l s : Bool)
    (ch : List (Option (OctreeNode T))) (dat : Option T) :
    (OctreeNode.mk d l s ch dat).dimension = d := rfl

@[simp] theorem OctreeNode.leaf_mk {T : Type} (d : Nat) (l s : Bool)
    (ch : List (Option (OctreeNode T))) (dat : Option T) :
    (OctreeNode.mk d l s ch dat).leaf = l := rfl

@[simp] theorem OctreeNode.simplified_mk {T : Type} (d : Nat) (l s : Bool)
    (ch : List (Option (OctreeNode T))) (dat : Option T) :
    (OctreeNode.mk d l s ch dat).simplified = s := rfl

@[simp] theorem OctreeNode.children_mk {T : Type} (d : Nat) (l s : Bool)
    (ch : List (Option (OctreeNode T))) (dat : Option T) :
    (OctreeNode.mk d l s ch dat).children = ch := rfl

@[simp] theorem OctreeNode.data_mk {T : Type} (d : Nat) (l s : Bool)
    (ch : List (Option (OctreeNode T))) (dat : Option T) :
    (OctreeNode.mk d l s ch dat).data = dat := rfl

@[simp] theorem OctreeNode.setData_mk {T : Type} (d : Nat) (l s : Bool)
    (ch : List (Option (OctreeNode T))) (dat dat' : Option T) :
    (OctreeNode.mk d l s ch dat).setData dat' = OctreeNode.mk d l s ch dat' := rfl

@[simp] theorem noChildren_length (T : Type) : (noChildren T).length = 8 := rfl

@[simp] theorem childAt_nil {T : Type} (i : Nat) :
    childAt ([] : List (Option (OctreeNode T))) i = none := by
  cases i <;> rfl

@[simp] theorem childAt_noChildren (T : Type) (i : Nat) :
    childAt (noChildren T) i = none := by
  unfold noChildren
  rcases i with _ | _ | _ | _ | _ | _ | _ | _ | i <;> simp [childAt]

@[simp] theorem length_setChild {T : Type}
    (l : List (Option (OctreeNode T))) (i : Nat) (x : Option (OctreeNode T)) :
    (setChild l i x).length = l.length := by
  induction l generalizing i with
  | nil => rfl
  | cons c rest ih =>
    cases i with
    | zero => rfl
    | succ n => simp [setChild, ih]

theorem childAt_setChild_self {T : Type}
    (l : List (Option (OctreeNode T))) (i : Nat) (x : Option (OctreeNode T))
    (h : i < l.length) : childAt (setChild l i x) i = x := by
  induction l generalizing i with
  | nil => simp at h
  | cons c rest ih =>
    cases i with
    | zero => rfl
    | succ n =>
      simp only [List.length_cons, Nat.succ_lt_succ_iff] at h
      simpa [setChild, childAt] using ih n h

theorem childAt_setChild_ne {T : Type}
    (l : List (Option (OctreeNode T))) (i j : Nat) (x : Option (OctreeNode T))
    (h : i ≠ j) : childAt (setChild l i x) j = childAt l j := by
  induction l generalizing i j with
  | nil => simp [setChild]
  | cons c rest ih =>
    cases i with
    | zero =>
      cases j with
      | zero => exact absurd rfl h
      | succ m => rfl
    | succ n =>
      cases j with
      | zero => rfl
      | succ m =>
        simp only [setChild, childAt]
        exact ih n m (fun hnm => h (by omega))

theorem setChild_setChild {T : Type}
    (l : List (Option (OctreeNode T))) (i : Nat) (x y : Option (OctreeNode T)) :
    setChild (setChild l i x) i y = setChild l i y := by
  induction l generalizing i with
  | nil => rfl
  | cons c rest ih =>
    cases i with
    | zero => rfl
    | succ n => simp [setChild, ih]

theorem childAt_replicate {T : Type} (n i : Nat) (x : Option (OctreeNode T))
    (h : i < n) : childAt (List.replicate n x) i = x := by
  induction n generalizing i with
  | zero => omega
  | succ m ih =>
    cases i with
    | zero => rfl
    | succ k =>
      simp only [List.replicate, childAt]
      exact ih k (by omega)

theorem childAt_lt_length {T : Type}
    (l : List (Option (OctreeNode T))) (i : Nat) (c : OctreeNode T)
    (h : childAt l i = some c) : i < l.length := by
  induction l generalizing i with
  | nil => simp at h
  | cons hd rest ih =>
    cases i with
    | zero => simp
    | succ n =>
      simp only [childAt] at h
      simpa using ih n h

theorem getChildLoc_fst_lt (d : Nat) (loc : NodeLoc) :
    (getChildLoc d loc).1 < 8 := by
  simp only [getChildLoc]
  split <;> split <;> split <;> simp

/-- `atChildren` is the `at` step applied to the child found at index `i`. -/
theorem atChildren_eq {T : Type} (l : List (Option (OctreeNode T))) (i : Nat)
    (loc : NodeLoc) :
    OctreeNode.atChildren l i loc =
      match childAt l i with
      | none => none
      | some child => if child.leaf then child.data else child.at' loc := by
  induction l generalizing i with
  | nil => simp [OctreeNode.atChildren]
  | cons c rest ih =>
    cases i with
    | zero => cases c <;> rfl
    | succ n => simpa [OctreeNode.atChildren, childAt] using ih n

/-- `takeChildren` is the `take` step applied to the child found at index
`i`, rebuilding the list. -/
theorem takeChildren_eq {T : Type} (l : List (Option (OctreeNode T))) (i : Nat)
    (loc : NodeLoc) :
    OctreeNode.takeChildren l i loc =
      match childAt l i with
      | none => (none, l)
      | some child =>
        if child.leaf then (child.data, setChild l i (some (child.setData none)))
        else ((child.take loc).1, setChild l i (some (child.take loc).2)) := by
  induction l generalizing i with
  | nil => simp [OctreeNode.takeChildren]
  | cons c rest ih =>
    cases i with
    | zero =>
      cases c with
      | none => rfl
      | some child =>
        simp only [OctreeNode.takeChildren, childAt, setChild]
    | succ n =>
      simp only [OctreeNode.takeChildren, childAt, setChild]
      rw [ih n]
      rcases h : childAt rest n with _ | child
      · simp [h]
      · simp only [h]
        by_cases hleaf : child.leaf = true <;> simp [hleaf]

/-- `refChildren` is the `node_as_ref` step applied to the child at index `i`. -/
theorem refChildren_eq {T : Type} (l : List (Option (OctreeNode T))) (i : Nat)
    (loc : NodeLoc) :
    OctreeNode.refChildren l i loc =
      match childAt l i with
      | none => none
      | some child => if child.leaf then some child else child.node_as_ref loc := by
  induction l generalizing i with
  | nil => simp [OctreeNode.refChildren]
  | cons c rest ih =>
    cases i with
    | zero => cases c <;> rfl
    | succ n => simpa [OctreeNode.refChildren, childAt] using ih n

theorem at'_mk {T : Type} (d : Nat) (lf sp : Bool)
    (ch : List (Option (OctreeNode T))) (dat : Option T) (loc : NodeLoc) :
    (OctreeNode.mk d lf sp ch dat).at' loc =
      match childAt ch (getChildLoc d loc).1 with
      | none => none
      | some child =>
        if child.leaf then child.data else child.at' (getChildLoc d loc).2 := by
  rw [OctreeNode.at', atChildren_eq]

theorem take_mk {T : Type} (d : Nat) (lf sp : Bool)
    (ch : List (Option (OctreeNode T))) (dat : Option T) (loc : NodeLoc) :
    (OctreeNode.mk d lf sp ch dat).take loc =
      match childAt ch (getChildLoc d loc).1 with
      | none => (none, OctreeNode.mk d lf sp ch dat)
      | some child =>
        if child.leaf then
          (child.data,
           OctreeNode.mk d lf sp
             (setChild ch (getChildLoc d loc).1 (some (child.setData none))) dat)
        else
          ((child.take (getChildLoc d loc).2).1,
           OctreeNode.mk d lf sp
             (setChild ch (getChildLoc d loc).1
               (some (child.take (getChildLoc d loc).2).2)) dat) := by
  rw [OctreeNode.take, takeChildren_eq]
  rcases h : childAt ch (getChildLoc d loc).1 with _ | child
  · simp [h]
  · simp only [h]
    by_cases hleaf : child.leaf = true <;> simp [hleaf]

theorem node_as_ref_mk {T : Type} (d : Nat) (lf sp : Bool)
    (ch : List (Option (OctreeNode T))) (dat : Option T) (loc : NodeLoc) :
    (OctreeNode.mk d lf sp ch dat).node_as_ref loc =
      match childAt ch (getChildLoc d loc).1 with
      | none => none
      | some child =>
        if child.leaf then some child
        else child.node_as_ref (getChildLoc d loc).2 := by
  rw [OctreeNode.node_as_ref, refChildren_eq]

/-- A child list with an empty slot never passes `try_simplify`'s scan; in
particular `noChildren` with at most one slot filled. -/
theorem simplifyCheck_setChild_noChildren {T : Type} [DecidableEq T] (v : T)
    (i : Nat) (x : Option (OctreeNode T)) :
    simplifyCheck v (setChild (noChildren T) i x) = false := by
  unfold noChildren
  rcases i with _ | i
  · rcases x with _ | c
    · rfl
    · rcases hd : c.data with _ | nd
      · simp [setChild, simplifyCheck, hd]
      · simp only [setChild, simplifyCheck, hd]
        split <;> rfl
  · rfl

/-- The scan of `try_simplify` fails on the child list built by
`try_desimplify` when the written value differs from the old uniform one. -/
theorem simplifyCheck_setChild_replicate {T : Type} [DecidableEq T]
    (v1 v2 : T) (hne : ¬v1 = v2) (s c : OctreeNode T) (hs : s.data = some v1)
    (hc : c.data = some v2) (i : Nat) :
    simplifyCheck v2 (setChild (List.replicate 8 (some s)) i (some c)) = false := by
  rcases i with _ | i
  · simp [List.replicate_succ, setChild, simplifyCheck, hc, hs, hne]
  · simp [List.replicate_succ, setChild, simplifyCheck, hs, hne]

/-- At a node of stored dimension 2, distinct unit-voxel coordinates are
routed to distinct octants. -/
theorem getChildLoc_two_inj (x y z x' y' z' : Nat)
    (hx : x < 2) (hy : y < 2) (hz : z < 2)
    (hx' : x' < 2) (hy' : y' < 2) (hz' : z' < 2)
    (hne : NodeLoc.mk x y z ≠ NodeLoc.mk x' y' z') :
    (getChildLoc 2 ⟨x, y, z⟩).1 ≠ (getChildLoc 2 ⟨x', y', z'⟩).1 := by
  interval_cases x <;> interval_cases y <;> interval_cases z <;>
    interval_cases x' <;> interval_cases y' <;> interval_cases z' <;>
    first
      | exact absurd rfl hne
      | decide

/-- `floorSqrtGo` returns the integer square root once given enough fuel. -/
theorem floorSqrtGo_spec (n : Nat) : ∀ (fuel k : Nat), k * k ≤ n →
    (∀ j, j * j ≤ n → j ≤ k + fuel) →
    floorSqrtGo n fuel k * floorSqrtGo n fuel k ≤ n ∧
      n < (floorSqrtGo n fuel k + 1) * (floorSqrtGo n fuel k + 1) := by
  intro fuel
  induction fuel with
  | zero =>
    intro k hk hall
    simp only [floorSqrtGo]
    refine ⟨hk, ?_⟩
    by_contra hcon
    have := hall (k + 1) (by omega)
    omega
  | succ f ih =>
    intro k hk hall
    simp only [floorSqrtGo]
    split
    · exact ih (k + 1) (by assumption) (fun j hj => by have := hall j hj; omega)
    · exact ⟨hk, by omega⟩

/-- `floorSqrt n` is the integer square root of `n`. -/
theorem floorSqrt_spec (n : Nat) :
    floorSqrt n * floorSqrt n ≤ n ∧
      n < (floorSqrt n + 1) * (floorSqrt n + 1) := by
  refine floorSqrtGo_spec n n 0 (by simp) ?_
  intro j hj
  rcases Nat.eq_zero_or_pos j with h0 | h0
  · omega
  · have : j * 1 ≤ j * j := Nat.mul_le_mul_left j h0
    omega

/-- `floorSqrt` of a perfect square. -/
theorem floorSqrt_mul_self (k : Nat) : floorSqrt (k * k) = k := by
  obtain ⟨h1, h2⟩ := floorSqrt_spec (k * k)
  rcases Nat.lt_trichotomy (floorSqrt (k * k)) k with h | h | h
  · have := Nat.mul_self_le_mul_self (show floorSqrt (k * k) + 1 ≤ k by omega)
    omega
  · exact h
  · have h3 := Nat.mul_self_le_mul_self (show k + 1 ≤ floorSqrt (k * k) by omega)
    have h4 := Nat.mul_self_lt_mul_self (show k < k + 1 by omega)
    omega

/-- `2 * m ≤ 2 ^ m` for `m ≥ 1`. -/
theorem two_mul_le_two_pow (m : Nat) (hm : 1 ≤ m) : 2 * m ≤ 2 ^ m := by
  induction m with
  | zero => omega
  | succ k ih =>
    rcases Nat.eq_zero_or_pos k with h0 | h0
    · subst h0; simp
    · have h2 : (2 : Nat) ≤ 2 ^ k := by
        calc (2 : Nat) = 2 ^ 1 := rfl
        _ ≤ 2 ^ k := Nat.pow_le_pow_right (by omega) h0
      have := ih h0
      have : 2 ^ (k + 1) = 2 ^ k + 2 ^ k := by rw [Nat.pow_succ]; omega
      omega

/-- Reading a coherent child list yields a coherent child of halved stored
dimension. -/
theorem dimsOkList_childAt {T : Type} (dim : Nat)
    (l : List (Option (OctreeNode T))) (i : Nat) (c : OctreeNode T)
    (hok : dimsOkList dim l = true) (h : childAt l i = some c) :
    c.dimension = dim / 2 ∧ dimsOk c = true := by
  induction l generalizing i with
  | nil => simp at h
  | cons hd rest ih =>
    cases i with
    | zero =>
      cases hd with
      | none => simp [childAt] at h
      | some c0 =>
        simp only [childAt, Option.some.injEq] at h
        subst h
        simp only [dimsOkList, Bool.and_eq_true, decide_eq_true_eq] at hok
        exact ⟨hok.1.1, hok.1.2⟩
    | succ n =>
      cases hd with
      | none =>
        simp only [dimsOkList] at hok
        exact ih n hok h
      | some c0 =>
        simp only [dimsOkList, Bool.and_eq_true] at hok
        exact ih n hok.2 h

/-- Fresh nodes are dimension-coherent. -/
theorem dimsOk_new {T : Type} (d : Nat) (v : T) :
    dimsOk (OctreeNode.new d v) = true := rfl

/-- `try_simplify` leaves the node unchanged when the scan fails. -/
theorem try_simplify_no {T : Type} [DecidableEq T] (d : Nat) (l s : Bool)
    (ch : List (Option (OctreeNode T))) (dat : Option T) (v : T)
    (h : simplifyCheck v ch = false) :
    (OctreeNode.mk d l s ch dat).try_simplify v = OctreeNode.mk d l s ch dat := by
  simp [OctreeNode.try_simplify, h]

/-- One step of `insert` on a fresh node (leaf, not simplified, no
children): the fresh child seeded with `v` is used, the node turns internal,
and after the base case or the recursive call the child is stored back (the
node cannot simplify, having seven empty slots). -/
theorem insert_fresh_step {T : Type} [DecidableEq T] (fuel dim : Nat)
    (dat : Option T) (loc : NodeLoc) (v : T) :
    OctreeNode.insert (fuel + 1) (.mk dim true false (noChildren T) dat) loc v =
      match (if dim = 2 then IRes.ok ((OctreeNode.new dim v).make_leaf true)
             else OctreeNode.insert fuel (OctreeNode.new dim v)
                    (getChildLoc dim loc).2 v) with
      | .outOfFuel => .outOfFuel
      | .fatal => .fatal
      | .ok node1 =>
        IRes.ok ((OctreeNode.mk dim false false
          (setChild (noChildren T) (getChildLoc dim loc).1 (some node1))
          none).try_simplify v) := by
  simp only [OctreeNode.insert, childAt_noChildren]
  rfl

/-- Core of the round-trip property: a successful insert into a fresh node
(leaf, not simplified, all children absent — the shape of a fresh root and of
every intermediate node `insert` creates) yields a node on which `take` at
the same location returns the value and clears it, after which `at` reads
nothing and a second `take` returns nothing and changes nothing. -/
theorem insert_fresh_roundtrip {T : Type} [DecidableEq T] :
    ∀ (fuel dim : Nat) (dat : Option T) (loc : NodeLoc) (v : T)
      (X' : OctreeNode T),
      OctreeNode.insert fuel (.mk dim true false (noChildren T) dat) loc v =
        .ok X' →
      X'.leaf = false ∧
      (X'.take loc).1 = some v ∧
      ((X'.take loc).2).leaf = false ∧
      ((X'.take loc).2).at' loc = none ∧
      ((X'.take loc).2).take loc = (none, (X'.take loc).2) := by
  intro fuel
  induction fuel with
  | zero =>
    intro dim dat loc v X' h
    simp [OctreeNode.insert] at h
  | succ f ih =>
    intro dim dat loc v X' h
    rw [insert_fresh_step] at h
    have hcl : (getChildLoc dim loc).1 < (noChildren T).length := by
      simpa using getChildLoc_fst_lt dim loc
    by_cases hdim : dim = 2
    · -- base of the recursion: the child is forced to a terminal unit leaf
      rw [if_pos hdim] at h
      have h' : IRes.ok ((OctreeNode.mk dim false false
          (setChild (noChildren T) (getChildLoc dim loc).1
            (some (OctreeNode.mk (dim / 2) true false (noChildren T) (some v))))
          none).try_simplify v) = IRes.ok X' := h
      rw [try_simplify_no _ _ _ _ _ _
        (simplifyCheck_setChild_noChildren v (getChildLoc dim loc).1 _)] at h'
      simp only [IRes.ok.injEq] at h'
      subst h'
      refine ⟨rfl, ?_, ?_, ?_, ?_⟩
      · rw [take_mk, childAt_setChild_self _ _ _ hcl]
        simp
      · rw [take_mk, childAt_setChild_self _ _ _ hcl]
        simp
      · rw [take_mk, childAt_setChild_self _ _ _ hcl]
        simp only [OctreeNode.leaf_mk, if_true, OctreeNode.setData_mk,
          setChild_setChild]
        rw [at'_mk, childAt_setChild_self _ _ _ (by simpa using hcl)]
        simp
      · rw [take_mk, childAt_setChild_self _ _ _ hcl]
        simp only [OctreeNode.leaf_mk, if_true, OctreeNode.setData_mk,
          setChild_setChild]
        rw [take_mk, childAt_setChild_self _ _ _ (by simpa using hcl)]
        simp [setChild_setChild]
    · -- recursive case: insert into the fresh child, which is itself fresh
      rw [if_neg hdim] at h
      cases hstep : OctreeNode.insert f (OctreeNode.new dim v)
          (getChildLoc dim loc).2 v with
      | fatal => rw [hstep] at h; simp at h
      | outOfFuel => rw [hstep] at h; simp at h
      | ok node1 =>
        rw [hstep] at h
        obtain ⟨h1, h2, h3, h4, h5⟩ := ih (dim / 2) (some v)
          (getChildLoc dim loc).2 v node1 hstep
        have h' : IRes.ok ((OctreeNode.mk dim false false
            (setChild (noChildren T) (getChildLoc dim loc).1 (some node1))
            none).try_simplify v) = IRes.ok X' := h
        rw [try_simplify_no _ _ _ _ _ _
          (simplifyCheck_setChild_noChildren v (getChildLoc dim loc).1 _)] at h'
        simp only [IRes.ok.injEq] at h'
        subst h'
        refine ⟨rfl, ?_, ?_, ?_, ?_⟩
        · rw [take_mk, childAt_setChild_self _ _ _ hcl]
          simp [h1, h2]
        · rw [take_mk, childAt_setChild_self _ _ _ hcl]
          simp [h1]
        · rw [take_mk, childAt_setChild_self _ _ _ hcl]
          simp only [h1, Bool.false_eq_true, if_false]
          rw [at'_mk, childAt_setChild_self _ _ _ (by simpa using hcl)]
          simp [h3, h4]
        · rw [take_mk, childAt_setChild_self _ _ _ hcl]
          simp only [h1, Bool.false_eq_true, if_false]
          rw [take_mk, childAt_setChild_self _ _ _ (by simpa using hcl)]
          simp only [h3, Bool.false_eq_true, if_false, setChild_setChild]
          rw [h5]

/-- Unpacking a successful construction: the accepted dimension is stored,
`max_depth` is its integer square root, and the root is the fresh valueless
leaf. -/
theorem Octree.new_eq {T : Type} (d : Nat) (t : Octree T)
    (h : Octree.new T d = some t) :
    t.dimension = d ∧ t.maxDepth = floorSqrt d ∧
      t.root = OctreeNode.construct_root T d := by
  simp only [Octree.new] at h
  by_cases hc : floorSqrt d * floorSqrt d = d ∧ floorSqrt d < 255
  · rw [if_pos hc, Option.some.injEq] at h
    subst h
    exact ⟨rfl, rfl, rfl⟩
  · rw [if_neg hc] at h
    cases h

/-- C8 (confirmed): on a fresh tree (any accepted dimension `d`), after a
successful `insert(c, v)` at an in-bounds coordinate `c`, `take(c)` returns
`Some v`, a following `at(c)` returns `None`, and a second `take(c)` returns
`None`. -/
theorem insert_take_at_take_roundtrip {T : Type} [DecidableEq T]
    (d fuel : Nat) (t t1 : Octree T) (loc : NodeLoc) (v : T)
    (hnew : Octree.new T d = some t)
    (hx : loc.x < d) (hy : loc.y < d) (hz : loc.z < d)
    (hins : Octree.insert fuel t loc v = .ok t1) :
    (t1.take loc).1 = some v ∧
    ((t1.take loc).2).at' loc = none ∧
    (((t1.take loc).2).take loc).1 = none := by
  obtain ⟨hdim, hdepth, hroot⟩ := Octree.new_eq d t hnew
  have hcont : t.containsLoc loc = true := by
    simp [Octree.containsLoc, hdim, hx, hy, hz]
  rw [Octree.insert, if_pos hcont] at hins
  cases hni : OctreeNode.insert fuel t.root loc v with
  | fatal => rw [hni] at hins; cases hins
  | outOfFuel => rw [hni] at hins; cases hins
  | ok r =>
    rw [hni] at hins
    have ht1 : t1 = ⟨t.dimension, t.maxDepth, r⟩ := by
      injection hins with h'
      exact h'.symm
    rw [hroot] at hni
    obtain ⟨h1, h2, h3, h4, h5⟩ :=
      insert_fresh_roundtrip fuel d none loc v r hni
    subst ht1
    refine ⟨?_, ?_, ?_⟩
    · simpa [Octree.take] using h2
    · simpa [Octree.take, Octree.at'] using h4
    · simp only [Octree.take, Octree.at']
      rw [h5]

/-- Witness for C8: dimension 4, `c = (0,0,0)`, `v = 7`, fuel 9. -/
theorem insert_take_at_take_roundtrip_witness :
    (c8Tree1.take ⟨0, 0, 0⟩).1 = some 7 ∧
    ((c8Tree1.take ⟨0, 0, 0⟩).2).at' ⟨0, 0, 0⟩ = none ∧
    (((c8Tree1.take ⟨0, 0, 0⟩).2).take ⟨0, 0, 0⟩).1 = none :=
  insert_take_at_take_roundtrip 4 9 octree4 c8Tree1 ⟨0, 0, 0⟩ 7
    (by rfl) (by decide) (by decide) (by decide) (by rfl)

/-- C1 (code bug): on the fresh dimension-4 tree, `insert((0,0,0), 0)`
followed by `insert((0,0,0), 1)` succeeds, yet `at((0,0,0))` still returns
`Some 0`.  The base case of `OctreeNode::insert` takes the pre-existing unit
leaf, calls `make_leaf(true)` on it and stores it back without ever writing
the new value into its `data` field, contradicting the spec's round-trip
property and `Octree::insert`'s own doc comment ("If this is called on a
location where a node already exists, just set the `data` field"). -/
theorem insert_does_not_overwrite_unit_leaf :
    (insertSeq 9 octree4 [(⟨0, 0, 0⟩, 0), (⟨0, 0, 0⟩, 1)]).map
      (fun t => t.at' ⟨0, 0, 0⟩) = some (some 0) := rfl

/-- C3 (code bug): `insert_none((0,0,0))` erases the unrelated value stored
at `(3,3,3)`.  `try_simplify_none` only inspects the `data` fields of the
root's direct children, and internal nodes always have `data = None`, so the
root discards all its children even though values remain below them. -/
theorem insert_none_wipes_unrelated_values :
    insertSeq 9 octree4 [(⟨0, 0, 0⟩, 7), (⟨3, 3, 3⟩, 9)] = some c3Tree ∧
    c3Tree.at' ⟨3, 3, 3⟩ = some 9 ∧
    (c3Tree.insert_none ⟨0, 0, 0⟩).at' ⟨3, 3, 3⟩ = none := ⟨rfl, rfl, rfl⟩

/-- C4 (code bug): after `insert_none((0,0,0))` on a fresh dimension-4 tree
the root is simplified with `data = None`; the next in-bounds insert then
reaches `try_desimplify`, whose `self.data.unwrap()` panics (modelled as
`fatal`) — a fatal abort on a public operation with an in-bounds
coordinate. -/
theorem insert_after_insert_none_panics :
    emptyCollapsed4.containsLoc ⟨0, 0, 0⟩ = true ∧
    Octree.insert 20 emptyCollapsed4 ⟨0, 0, 0⟩ 5 = TreeRes.fatal := ⟨rfl, rfl⟩

/-- C5 (code bug): after uniformly filling the dimension-4 tree with 1 (the
root collapses) and re-inserting the same value 1 at `(0,0,0)`, the root is
still flagged as a leaf yet holds a present child in slot 0: inserting an
equal value into a collapsed node stores a child without clearing the leaf
flag, violating the leaf/internal invariant (the spec says this insert is a
no-op). -/
theorem leaf_node_with_present_child_reachable :
    insertSeq 9 octree4 cube4val1 = some collapsedTree4 ∧
    Octree.insert 9 collapsedTree4 ⟨0, 0, 0⟩ 1 = TreeRes.ok c5After ∧
    c5After.root.leaf = true ∧
    (childAt c5After.root.children 0).isSome = true := ⟨rfl, rfl, rfl, rfl⟩

/-- C6 (code bug): a single `insert_none((0,0,0))` on a fresh dimension-4
tree leaves the root with `simplified = true`, `leaf = true` and
`data = None`: `try_simplify_none` marks nodes collapsed without giving them
a value, violating the collapsed-implies-value-present invariant that
`try_desimplify`'s own `unwrap` relies on. -/
theorem collapsed_node_without_value_reachable :
    emptyCollapsed4.root.simplified = true ∧
    emptyCollapsed4.root.leaf = true ∧
    emptyCollapsed4.root.data = none := ⟨rfl, rfl, rfl⟩

/-- C7 (counterexample): there is no fresh 8-edge tree — the constructor
rejects dimension 8, since `√8` is not an integer (the validity check
accepts perfect squares only). -/
theorem octree_new_rejects_dimension_eight :
    Octree.new Nat 8 = none := rfl

/-- C7 (amended, on the constructible dimension-16 tree of the spec's
concrete scenario): inserting 255 at 7 of the 8 unit voxels of the edge-2
region at the origin does not collapse it — `node_reference((0,0,0))`
reports stored edge length 1 and not-collapsed; after the 8th equal insert
the region collapses and `node_reference((0,0,0))` reports edge length 2 and
collapsed. -/
theorem uniform_collapse_scenario_dimension_sixteen :
    Octree.new Nat 16 = some octree16 ∧
    insertSeq 9 octree16 sevenInserts = some c7t7 ∧
    (c7t7.node_as_ref ⟨0, 0, 0⟩).map (fun n => n.dimension) = some 1 ∧
    (c7t7.node_as_ref ⟨0, 0, 0⟩).map (fun n => n.simplified) = some false ∧
    Octree.insert 9 c7t7 ⟨1, 1, 1⟩ 255 = TreeRes.ok c7t8 ∧
    (c7t8.node_as_ref ⟨0, 0, 0⟩).map (fun n => n.dimension) = some 2 ∧
    (c7t8.node_as_ref ⟨0, 0, 0⟩).map (fun n => n.simplified) = some true :=
  ⟨rfl, rfl, rfl, rfl, rfl, rfl, rfl⟩

/-- C9 (counterexample): dimension 1 is accepted by construction
(`√1 = 1`), `(0,0,0)` is strictly inside, and `max_depth = 1`, yet `insert`
does not terminate within 20 recursive steps (it descends through
stored-dimension-0 nodes forever), far beyond the claimed `max_depth`
bound. -/
theorem dimension_one_insert_never_terminates :
    Octree.new Nat 1 = some octree1 ∧
    octree1.maxDepth = 1 ∧
    octree1.containsLoc ⟨0, 0, 0⟩ = true ∧
    Octree.insert 20 octree1 ⟨0, 0, 0⟩ 0 = TreeRes.outOfFuel :=
  ⟨rfl, rfl, rfl, rfl⟩

/-- C2 (counterexample): uniformly filling the dimension-4 tree with 1
collapses it into a single leaf region of edge 4 holding 1; inserting 2 at
`(0,0,0)` then desimplifies, but the voxel `(0,0,1)` — inside the collapsed
region and distinct from the modified voxel — now reads `None` instead of
the claimed `Some 1` (only the seven sibling octants are reconstructed,
not the rest of the target octant). -/
theorem desimplify_loses_sibling_voxels :
    insertSeq 9 octree4 cube4val1 = some collapsedTree4 ∧
    collapsedTree4.root.leaf = true ∧
    collapsedTree4.root.simplified = true ∧
    collapsedTree4.root.dimension = 4 ∧
    collapsedTree4.root.data = some 1 ∧
    Octree.insert 9 collapsedTree4 ⟨0, 0, 0⟩ 2 = TreeRes.ok c2After ∧
    c2After.at' ⟨0, 0, 0⟩ = some 2 ∧
    c2After.at' ⟨0, 0, 1⟩ = none :=
  ⟨rfl, rfl, rfl, rfl, rfl, rfl, rfl, rfl⟩

/-- C10 (counterexample): after uniformly filling the dimension-4 tree with
1, the root itself is the collapsed region (a leaf of edge 4 > 1 holding 1);
`take((0,0,0))` then returns `None` rather than the claimed `Some 1`,
because `take` only inspects children and the collapsed root has none. -/
theorem take_on_fully_collapsed_root_returns_none :
    insertSeq 9 octree4 cube4val1 = some collapsedTree4 ∧
    collapsedTree4.root.leaf = true ∧
    collapsedTree4.root.dimension = 4 ∧
    collapsedTree4.root.data = some 1 ∧
    (collapsedTree4.take ⟨0, 0, 0⟩).1 = none := ⟨rfl, rfl, rfl, rfl, rfl⟩

/-- C10 (amended): when the collapsed uniform region is a proper subregion —
a leaf `X` with value `v` and edge > 1 occupying a child slot of some node —
`take` at any location routed to that slot returns `Some v` and removes the
single stored value for the whole region: afterwards `at` returns `None` for
every location routed into that region, not only the taken one. -/
theorem take_collapsed_region_clears_whole_region {T : Type}
    (dim : Nat) (lf sp : Bool) (ch : List (Option (OctreeNode T)))
    (dat : Option T) (loc loc2 : NodeLoc) (X : OctreeNode T) (v : T)
    (hX : childAt ch (getChildLoc dim loc).1 = some X)
    (hleaf : X.leaf = true) (hdata : X.data = some v) (hedge : 1 < X.dimension)
    (hsame : (getChildLoc dim loc2).1 = (getChildLoc dim loc).1) :
    ((OctreeNode.mk dim lf sp ch dat).take loc).1 = some v ∧
    (((OctreeNode.mk dim lf sp ch dat).take loc).2).at' loc2 = none := by
  have hlen := childAt_lt_length ch (getChildLoc dim loc).1 _ hX
  obtain ⟨xd, xl, xs, xch, xdat⟩ := X
  simp only [OctreeNode.leaf_mk] at hleaf
  simp only [OctreeNode.data_mk] at hdata
  subst hleaf
  subst hdata
  constructor
  · rw [take_mk]
    simp [hX]
  · rw [take_mk]
    simp only [hX, OctreeNode.leaf_mk, if_true]
    rw [at'_mk, hsame, childAt_setChild_self _ _ _ hlen]
    simp

/-- Witness for C10 (amended): a dimension-4 node holding a collapsed edge-2
leaf with value 5 in octant 0; taking `(0,0,0)` yields 5, and `(1,1,0)` —
another voxel of the same region — reads `None` afterwards. -/
theorem take_collapsed_region_clears_whole_region_witness :
    (c10Parent.take ⟨0, 0, 0⟩).1 = some 5 ∧
    ((c10Parent.take ⟨0, 0, 0⟩).2).at' ⟨1, 1, 0⟩ = none :=
  take_collapsed_region_clears_whole_region 4 false false
    (setChild (noChildren Nat) 0
      (some (OctreeNode.mk 2 true true (noChildren Nat) (some 5))))
    none ⟨0, 0, 0⟩ ⟨1, 1, 0⟩
    (OctreeNode.mk 2 true true (noChildren Nat) (some 5)) 5
    rfl rfl rfl (by decide) rfl

/-- C2 (amended): for a collapsed uniform region of edge exactly 2 — a
simplified leaf of stored dimension 2 holding `v1` — a successful insert of
a different value `v2` at a voxel `loc` of the region expands it so that
`at(loc)` reads `v2` while `at(loc')` still reads `v1` for every other voxel
`loc'` of the region.  (For collapsed regions of edge > 2 the property fails;
see the counterexample.) -/
theorem desimplify_edge_two_preserves_region {T : Type} [DecidableEq T]
    (fuel : Nat) (v1 v2 : T) (loc loc' : NodeLoc) (X' : OctreeNode T)
    (hne : ¬v1 = v2)
    (hx : loc.x < 2) (hy : loc.y < 2) (hz : loc.z < 2)
    (hx' : loc'.x < 2) (hy' : loc'.y < 2) (hz' : loc'.z < 2)
    (hll : loc ≠ loc')
    (hins : OctreeNode.insert fuel
      (.mk 2 true true (noChildren T) (some v1)) loc v2 = .ok X') :
    X'.at' loc = some v2 ∧ X'.at' loc' = some v1 := by
  obtain ⟨x, y, z⟩ := loc
  obtain ⟨x', y', z'⟩ := loc'
  cases fuel with
  | zero => simp [OctreeNode.insert] at hins
  | succ f =>
    simp only [OctreeNode.insert, childAt_noChildren, Bool.not_true,
      Bool.and_false, Bool.false_eq_true, if_false, if_pos rfl,
      noChildren_length, Option.some.injEq, hne, not_false_iff, and_true,
      and_self, if_true] at hins
    have h' : IRes.ok ((OctreeNode.mk 2 false false
        (setChild (List.replicate 8 (some (OctreeNode.new 2 v1)))
          (getChildLoc 2 ⟨x, y, z⟩).1
          (some ((OctreeNode.new 2 v2).make_leaf true))) none).try_simplify v2)
        = IRes.ok X' := hins
    rw [try_simplify_no _ _ _ _ _ _
      (simplifyCheck_setChild_replicate v1 v2 hne (OctreeNode.new 2 v1)
        ((OctreeNode.new 2 v2).make_leaf true) rfl rfl _)] at h'
    simp only [IRes.ok.injEq] at h'
    subst h'
    have hcl : (getChildLoc 2 (NodeLoc.mk x y z)).1 <
        (List.replicate 8 (some (OctreeNode.new (T := T) 2 v1))).length := by
      simpa using getChildLoc_fst_lt 2 ⟨x, y, z⟩
    have hinj := getChildLoc_two_inj x y z x' y' z' hx hy hz hx' hy' hz' hll
    constructor
    · rw [at'_mk, childAt_setChild_self _ _ _ hcl]
      rfl
    · rw [at'_mk, childAt_setChild_ne _ _ _ _ hinj,
        childAt_replicate _ _ _ (getChildLoc_fst_lt 2 ⟨x', y', z'⟩)]
      rfl

/-- At stored dimension 2 `insert` performs no recursive call, so one unit
of fuel is enough for it not to run out (it returns `ok` or `fatal`). -/
theorem insert_base_ne_outOfFuel {T : Type} [DecidableEq T] (f dim : Nat)
    (lf sp : Bool) (ch : List (Option (OctreeNode T))) (dat : Option T)
    (loc : NodeLoc) (v : T) (hdim2 : dim = 2) :
    OctreeNode.insert (f + 1) (OctreeNode.mk dim lf sp ch dat) loc v ≠
      IRes.outOfFuel := by
  subst hdim2
  simp only [OctreeNode.insert, eq_self_iff_true, if_true]
  repeat' split
  all_goals simp

/-- At stored dimension ≠ 2 `insert` makes exactly one recursive call, into
a node that is either a fresh child or a stored child of the coherent child
list; if that call does not run out of fuel, neither does this level. -/
theorem insert_step_ne_outOfFuel {T : Type} [DecidableEq T] (f dim : Nat)
    (lf sp : Bool) (ch : List (Option (OctreeNode T))) (dat : Option T)
    (loc : NodeLoc) (v : T) (hdim2 : ¬dim = 2)
    (hok : dimsOkList dim ch = true)
    (hrec : ∀ node0 : OctreeNode T, node0.dimension = dim / 2 →
      dimsOk node0 = true →
      OctreeNode.insert f node0 (getChildLoc dim loc).2 v ≠ IRes.outOfFuel) :
    OctreeNode.insert (f + 1) (OctreeNode.mk dim lf sp ch dat) loc v ≠
      IRes.outOfFuel := by
  simp only [OctreeNode.insert, if_neg hdim2]
  rcases hch : childAt ch (getChildLoc dim loc).1 with _ | c
  all_goals simp only [hch]
  · -- no stored child: fresh node
    rcases hstep : OctreeNode.insert f (OctreeNode.new dim v)
        (getChildLoc dim loc).2 v with node1 | _ | _
    · simp only [hstep]
      repeat' split
      all_goals simp
    · simp [hstep]
    · exact absurd hstep (hrec _ rfl (dimsOk_new dim v))
  · -- stored child: reused unless the node is simplified
    obtain ⟨hcd, hcok⟩ := dimsOkList_childAt dim ch _ c hok hch
    have hnode0 : ∀ node0 : OctreeNode T,
        node0 = (if sp then OctreeNode.new dim v else c) →
        OctreeNode.insert f node0 (getChildLoc dim loc).2 v ≠
          IRes.outOfFuel := by
      intro node0 hn
      by_cases hsp : sp = true
      · rw [hn, if_pos hsp]
        exact hrec _ rfl (dimsOk_new dim v)
      · rw [hn, if_neg hsp]
        exact hrec c hcd hcok
    rcases hstep : OctreeNode.insert f (if sp then OctreeNode.new dim v else c)
        (getChildLoc dim loc).2 v with node1 | _ | _
    · simp only [hstep]
      repeat' split
      all_goals simp
    · simp [hstep]
    · exact absurd hstep (hnode0 _ rfl)

/-- On a dimension-coherent node of stored dimension `2^(j+1)`, `insert`
given at least `j+1` units of fuel never runs out: the stored dimension
halves at each level and the recursion bottoms out at stored dimension 2. -/
theorem insert_ne_outOfFuel {T : Type} [DecidableEq T] :
    ∀ (j : Nat) (X : OctreeNode T) (loc : NodeLoc) (v : T) (fuel : Nat),
      X.dimension = 2 ^ (j + 1) → dimsOk X = true → j + 1 ≤ fuel →
      OctreeNode.insert fuel X loc v ≠ IRes.outOfFuel := by
  intro j
  induction j with
  | zero =>
    intro X loc v fuel hdim hok hfuel
    obtain ⟨dim, lf, sp, ch, dat⟩ := X
    simp only [OctreeNode.dimension_mk, pow_one] at hdim
    obtain ⟨f, rfl⟩ : ∃ f, fuel = f + 1 := ⟨fuel - 1, by omega⟩
    exact insert_base_ne_outOfFuel f dim lf sp ch dat loc v hdim
  | succ k ih =>
    intro X loc v fuel hdim hok hfuel
    obtain ⟨dim, lf, sp, ch, dat⟩ := X
    simp only [OctreeNode.dimension_mk] at hdim
    simp only [dimsOk] at hok
    obtain ⟨f, rfl⟩ : ∃ f, fuel = f + 1 := ⟨fuel - 1, by omega⟩
    by_cases hdim2 : dim = 2
    · exact insert_base_ne_outOfFuel f dim lf sp ch dat loc v hdim2
    · have hhalf : dim / 2 = 2 ^ (k + 1) := by
        rw [hdim, pow_succ, Nat.mul_div_cancel _ (by norm_num)]
      exact insert_step_ne_outOfFuel f dim lf sp ch dat loc v hdim2 hok
        (fun node0 hd hok0 =>
          ih node0 (getChildLoc dim loc).2 v f (by rw [hd, hhalf]) hok0
            (by omega))

/-- An element read out of a child list is structurally smaller than it. -/
theorem sizeOf_childAt {T : Type} (l : List (Option (OctreeNode T))) (i : Nat)
    (c : OctreeNode T) (h : childAt l i = some c) : sizeOf c < sizeOf l := by
  induction l generalizing i with
  | nil => simp at h
  | cons hd rest ih =>
    cases i with
    | zero =>
      cases hd with
      | none => simp [childAt] at h
      | some c0 =>
        simp only [childAt, Option.some.injEq] at h
        subst h
        simp only [List.cons.sizeOf_spec, Option.some.sizeOf_spec]
        omega
    | succ n =>
      have := ih n h
      simp only [List.cons.sizeOf_spec]
      omega

/-- Replacing the `data` field changes neither coherence nor the stored
dimension. -/
theorem dimsOk_setData {T : Type} (X : OctreeNode T) (dat : Option T) :
    dimsOk (X.setData dat) = dimsOk X ∧
      (X.setData dat).dimension = X.dimension := by
  obtain ⟨d, l, s, ch, dat0⟩ := X
  exact ⟨rfl, rfl⟩

/-- Storing a coherent child of halved stored dimension keeps the child list
coherent. -/
theorem dimsOkList_setChild {T : Type} (dim : Nat)
    (l : List (Option (OctreeNode T))) (i : Nat) (c : OctreeNode T)
    (hl : dimsOkList dim l = true) (hd : c.dimension = dim / 2)
    (hok : dimsOk c = true) :
    dimsOkList dim (setChild l i (some c)) = true := by
  induction l generalizing i with
  | nil => rfl
  | cons hd0 rest ih =>
    cases i with
    | zero =>
      have hrest : dimsOkList dim rest = true := by
        cases hd0 with
        | none => simpa [dimsOkList] using hl
        | some c0 =>
          simp only [dimsOkList, Bool.and_eq_true] at hl
          exact hl.2
      simp [setChild, dimsOkList, hd, hok, hrest]
    | succ n =>
      cases hd0 with
      | none =>
        simp only [dimsOkList] at hl ⊢
        exact ih n hl
      | some c0 =>
        simp only [dimsOkList, Bool.and_eq_true] at hl ⊢
        exact ⟨hl.1, ih n hl.2⟩

/-- The sibling octants built by `try_desimplify` are coherent. -/
theorem dimsOkList_replicate_new {T : Type} (dim n : Nat) (d0 : T) :
    dimsOkList dim (List.replicate n (some (OctreeNode.new dim d0))) = true := by
  induction n with
  | zero => rfl
  | succ k ih =>
    rw [List.replicate_succ]
    show (decide ((OctreeNode.new dim d0).dimension = dim / 2) &&
        dimsOk (OctreeNode.new dim d0) &&
        dimsOkList dim (List.replicate k (some (OctreeNode.new dim d0)))) = true
    rw [ih, dimsOk_new]
    simp [OctreeNode.new]

/-- `make_leaf(true)` clears the children, so the node is coherent and its
stored dimension is unchanged. -/
theorem dimsOk_make_leaf_true {T : Type} (X : OctreeNode T) :
    dimsOk (X.make_leaf true) = true ∧
      (X.make_leaf true).dimension = X.dimension := by
  obtain ⟨d, l, s, ch, dat⟩ := X
  exact ⟨rfl, rfl⟩

/-- `try_simplify` keeps the stored dimension and coherence. -/
theorem dimsOk_try_simplify {T : Type} [DecidableEq T] (d : Nat) (l s : Bool)
    (ch : List (Option (OctreeNode T))) (dat : Option T) (v : T)
    (hch : dimsOkList d ch = true) :
    ((OctreeNode.mk d l s ch dat).try_simplify v).dimension = d ∧
      dimsOk ((OctreeNode.mk d l s ch dat).try_simplify v) = true := by
  simp only [OctreeNode.try_simplify]
  split
  · exact ⟨rfl, rfl⟩
  · exact ⟨rfl, hch⟩

/-- The common tail of `insert` (desimplify-or-store, then `try_simplify`)
keeps the stored dimension and coherence. -/
theorem dimsOk_insert_tail {T : Type} [DecidableEq T] (dim : Nat)
    (lf1 sp : Bool) (ch : List (Option (OctreeNode T))) (dat1 : Option T)
    (cl : Nat) (node1 : OctreeNode T) (v : T) (X' : OctreeNode T)
    (hch : dimsOkList dim ch = true)
    (hn1 : node1.dimension = dim / 2) (hn1ok : dimsOk node1 = true)
    (h : (if sp = true ∧ ¬dat1 = some v then
        match OctreeNode.try_desimplify (OctreeNode.mk dim lf1 sp ch dat1)
            node1 cl with
        | none => IRes.fatal
        | some s => IRes.ok (s.try_simplify v)
      else
        IRes.ok ((OctreeNode.mk dim lf1 sp (setChild ch cl (some node1))
          dat1).try_simplify v)) = IRes.ok X') :
    X'.dimension = dim ∧ dimsOk X' = true := by
  split at h
  · rcases hdat : dat1 with _ | d0 <;>
      simp only [hdat, OctreeNode.try_desimplify] at h
    · cases h
    · simp only [IRes.ok.injEq] at h
      subst h
      exact dimsOk_try_simplify dim false false _ none v
        (dimsOkList_setChild dim _ cl node1
          (dimsOkList_replicate_new dim ch.length d0) hn1 hn1ok)
  · simp only [IRes.ok.injEq] at h
    subst h
    exact dimsOk_try_simplify dim lf1 sp _ dat1 v
      (dimsOkList_setChild dim ch cl node1 hch hn1 hn1ok)

/-- `take` keeps the stored dimension and coherence (strong induction on the
size of the node). -/
theorem dimsOk_take_aux {T : Type} :
    ∀ (n : Nat) (X : OctreeNode T) (loc : NodeLoc), sizeOf X ≤ n →
      dimsOk X = true →
      (X.take loc).2.dimension = X.dimension ∧ dimsOk (X.take loc).2 = true := by
  intro n
  induction n with
  | zero =>
    intro X loc hsz _
    obtain ⟨d, l, s, ch, dat⟩ := X
    simp only [OctreeNode.mk.sizeOf_spec] at hsz
    omega
  | succ n ih =>
    intro X loc hsz hok
    obtain ⟨d, lf, sp, ch, dat⟩ := X
    have hchsz : sizeOf ch < sizeOf (OctreeNode.mk d lf sp ch dat) := by
      simp only [OctreeNode.mk.sizeOf_spec]
      omega
    rw [take_mk]
    rcases hch : childAt ch (getChildLoc d loc).1 with _ | child
    · exact ⟨rfl, hok⟩
    · obtain ⟨hcd, hcok⟩ := dimsOkList_childAt d ch _ child hok hch
      have hcsz : sizeOf child ≤ n := by
        have h1 := sizeOf_childAt ch _ child hch
        omega
      by_cases hleaf : child.leaf = true
      · simp only [hleaf, if_true]
        refine ⟨rfl, ?_⟩
        exact dimsOkList_setChild d ch _ _ hok
          (by rw [(dimsOk_setData child none).2, hcd])
          (by rw [(dimsOk_setData child none).1]; exact hcok)
      · simp only [hleaf, Bool.false_eq_true, if_false]
        obtain ⟨hd2, hok2⟩ := ih child (getChildLoc d loc).2 hcsz hcok
        refine ⟨rfl, ?_⟩
        exact dimsOkList_setChild d ch _ _ hok (by rw [hd2, hcd]) hok2

/-- `take` keeps the stored dimension and coherence. -/
theorem dimsOk_take {T : Type} (X : OctreeNode T) (loc : NodeLoc)
    (h : dimsOk X = true) :
    (X.take loc).2.dimension = X.dimension ∧ dimsOk (X.take loc).2 = true :=
  dimsOk_take_aux (sizeOf X) X loc (le_refl _) h

/-- `insert_none` keeps the stored dimension and coherence. -/
theorem dimsOk_insert_none {T : Type} (X : OctreeNode T) (loc : NodeLoc)
    (h : dimsOk X = true) :
    (X.insert_none loc).dimension = X.dimension ∧
      dimsOk (X.insert_none loc) = true := by
  obtain ⟨hd, hok⟩ := dimsOk_take X loc h
  unfold OctreeNode.insert_none
  rcases hY : (X.take loc).2 with ⟨d2, l2, s2, ch2, dat2⟩
  rw [hY] at hd hok
  simp only [OctreeNode.try_simplify_none]
  split
  · exact ⟨by simpa using hd, rfl⟩
  · exact ⟨by simpa using hd, hok⟩

/-- A successful `insert` keeps the stored dimension and coherence, so the
dimension-coherence hypothesis of the termination theorem holds on every
tree reachable through the public operations. -/
theorem dimsOk_insert {T : Type} [DecidableEq T] :
    ∀ (fuel : Nat) (X X' : OctreeNode T) (loc : NodeLoc) (v : T),
      dimsOk X = true → OctreeNode.insert fuel X loc v = .ok X' →
      X'.dimension = X.dimension ∧ dimsOk X' = true := by
  intro fuel
  induction fuel with
  | zero =>
    intro X X' loc v hok hins
    simp [OctreeNode.insert] at hins
  | succ f ih =>
    intro X X' loc v hok hins
    obtain ⟨dim, lf, sp, ch, dat⟩ := X
    have hokl : dimsOkList dim ch = true := hok
    simp only [OctreeNode.insert] at hins
    rcases hch : childAt ch (getChildLoc dim loc).1 with _ | c <;>
      simp only [hch] at hins
    · -- absent child: fresh node seeded with v
      by_cases hdim2 : dim = 2
      · rw [if_pos hdim2] at hins
        have htail : (if sp = true ∧
            ¬(if (lf && !sp) = true then none else dat) = some v then
            match OctreeNode.try_desimplify
                (OctreeNode.mk dim (if (lf && !sp) = true then false else lf)
                  sp ch (if (lf && !sp) = true then none else dat))
                ((OctreeNode.new dim v).make_leaf true)
                (getChildLoc dim loc).1 with
            | none => IRes.fatal
            | some s => IRes.ok (s.try_simplify v)
          else
            IRes.ok ((OctreeNode.mk dim
              (if (lf && !sp) = true then false else lf) sp
              (setChild ch (getChildLoc dim loc).1
                (some ((OctreeNode.new dim v).make_leaf true)))
              (if (lf && !sp) = true then none else dat)).try_simplify v)) =
            IRes.ok X' := hins
        have hres := dimsOk_insert_tail dim _ sp ch _ (getChildLoc dim loc).1
          ((OctreeNode.new dim v).make_leaf true) v X' hokl
          (by rw [(dimsOk_make_leaf_true (OctreeNode.new dim v)).2]; rfl)
          (dimsOk_make_leaf_true (OctreeNode.new dim v)).1 htail
        simpa using hres
      · rw [if_neg hdim2] at hins
        rcases hstep : OctreeNode.insert f (OctreeNode.new dim v)
            (getChildLoc dim loc).2 v with node1 | _ | _ <;>
          rw [hstep] at hins
        · obtain ⟨hn1, hn1ok⟩ := ih (OctreeNode.new dim v) node1
            (getChildLoc dim loc).2 v (dimsOk_new dim v) hstep
          have htail : (if sp = true ∧
              ¬(if (lf && !sp) = true then none else dat) = some v then
              match OctreeNode.try_desimplify
                  (OctreeNode.mk dim (if (lf && !sp) = true then false else lf)
                    sp ch (if (lf && !sp) = true then none else dat))
                  node1 (getChildLoc dim loc).1 with
              | none => IRes.fatal
              | some s => IRes.ok (s.try_simplify v)
            else
              IRes.ok ((OctreeNode.mk dim
                (if (lf && !sp) = true then false else lf) sp
                (setChild ch (getChildLoc dim loc).1 (some node1))
                (if (lf && !sp) = true then none else dat)).try_simplify v)) =
              IRes.ok X' := hins
          have hres := dimsOk_insert_tail dim _ sp ch _ (getChildLoc dim loc).1
            node1 v X' hokl (by rw [hn1]; rfl) hn1ok htail
          simpa using hres
        · cases hins
        · cases hins
    · -- present child: reused unless the node is simplified
      obtain ⟨hcd, hcok⟩ := dimsOkList_childAt dim ch _ c hokl hch
      have hnode0 : ((if sp = true then OctreeNode.new dim v else c) :
          OctreeNode T).dimension = dim / 2 ∧
          dimsOk (if sp = true then OctreeNode.new dim v else c) = true := by
        by_cases hsp : sp = true
        · rw [if_pos hsp]
          exact ⟨rfl, dimsOk_new dim v⟩
        · rw [if_neg hsp]
          exact ⟨hcd, hcok⟩
      by_cases hdim2 : dim = 2
      · rw [if_pos hdim2] at hins
        have htail : (if sp = true ∧
            ¬(if (lf && !sp) = true then none else dat) = some v then
            match OctreeNode.try_desimplify
                (OctreeNode.mk dim (if (lf && !sp) = true then false else lf)
                  sp ch (if (lf && !sp) = true then none else dat))
                ((if sp = true then OctreeNode.new dim v else c).make_leaf true)
                (getChildLoc dim loc).1 with
            | none => IRes.fatal
            | some s => IRes.ok (s.try_simplify v)
          else
            IRes.ok ((OctreeNode.mk dim
              (if (lf && !sp) = true then false else lf) sp
              (setChild ch (getChildLoc dim loc).1
                (some ((if sp = true then OctreeNode.new dim v
                  else c).make_leaf true)))
              (if (lf && !sp) = true then none else dat)).try_simplify v)) =
            IRes.ok X' := hins
        have hres := dimsOk_insert_tail dim _ sp ch _ (getChildLoc dim loc).1
          ((if sp = true then OctreeNode.new dim v else c).make_leaf true) v X'
          hokl
          (by rw [(dimsOk_make_leaf_true _).2]; exact hnode0.1)
          (dimsOk_make_leaf_true _).1 htail
        simpa using hres
      · rw [if_neg hdim2] at hins
        rcases hstep : OctreeNode.insert f
            (if sp = true then OctreeNode.new dim v else c)
            (getChildLoc dim loc).2 v with node1 | _ | _ <;>
          rw [hstep] at hins
        · obtain ⟨hn1, hn1ok⟩ := ih _ node1 (getChildLoc dim loc).2 v
            hnode0.2 hstep
          have htail : (if sp = true ∧
              ¬(if (lf && !sp) = true then none else dat) = some v then
              match OctreeNode.try_desimplify
                  (OctreeNode.mk dim (if (lf && !sp) = true then false else lf)
                    sp ch (if (lf && !sp) = true then none else dat))
                  node1 (getChildLoc dim loc).1 with
              | none => IRes.fatal
              | some s => IRes.ok (s.try_simplify v)
            else
              IRes.ok ((OctreeNode.mk dim
                (if (lf && !sp) = true then false else lf) sp
                (setChild ch (getChildLoc dim loc).1 (some node1))
                (if (lf && !sp) = true then none else dat)).try_simplify v)) =
              IRes.ok X' := hins
          have hres := dimsOk_insert_tail dim _ sp ch _ (getChildLoc dim loc).1
            node1 v X' hokl (by rw [hn1, hnode0.1]) hn1ok htail
          simpa using hres
        · cases hins
        · cases hins

/-- Construction establishes the invariants assumed by the termination
theorem: the root's stored dimension is the tree dimension and the tree is
dimension-coherent. -/
theorem octree_invariants_new {T : Type} (d : Nat) (t : Octree T)
    (h : Octree.new T d = some t) :
    t.root.dimension = t.dimension ∧ dimsOk t.root = true := by
  obtain ⟨h1, h2, h3⟩ := Octree.new_eq d t h
  refine ⟨?_, ?_⟩
  · rw [h3, h1]; rfl
  · rw [h3]; rfl

/-- A successful top-level insert preserves the dimension, the max depth,
and the invariants assumed by the termination theorem. -/
theorem octree_invariants_insert {T : Type} [DecidableEq T] (fuel : Nat)
    (t t1 : Octree T) (loc : NodeLoc) (v : T)
    (hr : t.root.dimension = t.dimension) (hok : dimsOk t.root = true)
    (h : Octree.insert fuel t loc v = .ok t1) :
    t1.dimension = t.dimension ∧ t1.maxDepth = t.maxDepth ∧
      t1.root.dimension = t1.dimension ∧ dimsOk t1.root = true := by
  rw [Octree.insert] at h
  by_cases hc : t.containsLoc loc = true
  · rw [if_pos hc] at h
    rcases hni : OctreeNode.insert fuel t.root loc v with r | _ | _ <;>
      rw [hni] at h
    · injection h with h'
      obtain ⟨hd, hok'⟩ := dimsOk_insert fuel t.root r loc v hok hni
      rw [← h']
      exact ⟨rfl, rfl, by rw [hd, hr], hok'⟩
    · cases h
    · cases h
  · rw [if_neg hc] at h
    cases h

/-- The top-level take preserves the dimension, the max depth, and the
invariants assumed by the termination theorem. -/
theorem octree_invariants_take {T : Type} (t : Octree T) (loc : NodeLoc)
    (hr : t.root.dimension = t.dimension) (hok : dimsOk t.root = true) :
    (t.take loc).2.dimension = t.dimension ∧
      (t.take loc).2.maxDepth = t.maxDepth ∧
      (t.take loc).2.root.dimension = (t.take loc).2.dimension ∧
      dimsOk (t.take loc).2.root = true := by
  obtain ⟨hd, hok'⟩ := dimsOk_take t.root loc hok
  exact ⟨rfl, rfl, by simpa [Octree.take, hr] using hd, by
    simpa [Octree.take] using hok'⟩

/-- The top-level `insert_none` preserves the dimension, the max depth, and
the invariants assumed by the termination theorem. -/
theorem octree_invariants_insert_none {T : Type} (t : Octree T)
    (loc : NodeLoc)
    (hr : t.root.dimension = t.dimension) (hok : dimsOk t.root = true) :
    (t.insert_none loc).dimension = t.dimension ∧
      (t.insert_none loc).maxDepth = t.maxDepth ∧
      (t.insert_none loc).root.dimension = (t.insert_none loc).dimension ∧
      dimsOk (t.insert_none loc).root = true := by
  obtain ⟨hd, hok'⟩ := dimsOk_insert_none t.root loc hok
  exact ⟨rfl, rfl, by simpa [Octree.insert_none, hr] using hd, by
    simpa [Octree.insert_none] using hok'⟩

/-- C9 (amended): for a tree whose dimension is an accepted power of two
`2^(2m)` (`m ≥ 1`; construction accepts exactly the perfect squares, and the
iterated halving then reaches the base stored dimension 2), whose `max_depth`
is the construction-computed square root, and whose nodes are
dimension-coherent — as every tree built by the operations is — an insert at
any in-bounds coordinate terminates while descending through at most
`max_depth` recursive steps (fuel `max_depth` never runs out).  `at` and
`take` are structurally recursive total functions, so they terminate on every
tree. -/
theorem insert_terminates_within_max_depth {T : Type} [DecidableEq T]
    (m : Nat) (t : Octree T) (loc : NodeLoc) (v : T)
    (hm : 1 ≤ m) (hdim : t.dimension = 2 ^ (2 * m))
    (hmax : t.maxDepth = floorSqrt t.dimension)
    (hroot : t.root.dimension = t.dimension) (hwf : dimsOk t.root = true)
    (hx : loc.x < t.dimension) (hy : loc.y < t.dimension)
    (hz : loc.z < t.dimension) :
    Octree.insert t.maxDepth t loc v ≠ TreeRes.outOfFuel := by
  have hcont : t.containsLoc loc = true := by
    simp [Octree.containsLoc, hx, hy, hz]
  rw [Octree.insert, if_pos hcont]
  have hsq : floorSqrt (2 ^ (2 * m)) = 2 ^ m := by
    have h2 : (2 : Nat) ^ (2 * m) = 2 ^ m * 2 ^ m := by
      rw [two_mul, pow_add]
    rw [h2, floorSqrt_mul_self]
  have hfuel : 2 * m ≤ t.maxDepth := by
    rw [hmax, hdim, hsq]
    exact two_mul_le_two_pow m hm
  have hne := insert_ne_outOfFuel (2 * m - 1) t.root loc v t.maxDepth
    (by rw [hroot, hdim]; congr 1; omega) hwf (by omega)
  rcases hni : OctreeNode.insert t.maxDepth t.root loc v with r | _ | _
  · simp [hni]
  · simp [hni]
  · exact absurd hni hne

/-- Witness for C9 (amended): dimension 4 (`m = 1`), fresh tree, insert at
`(0,0,0)` with fuel `max_depth = 2` does not run out of fuel. -/
theorem insert_terminates_within_max_depth_witness :
    Octree.insert octree4.maxDepth octree4 ⟨0, 0, 0⟩ 5 ≠ TreeRes.outOfFuel :=
  insert_terminates_within_max_depth 1 octree4 ⟨0, 0, 0⟩ 5 (by decide)
    (by decide) (by rfl) (by rfl) (by rfl) (by decide) (by decide) (by decide)

/-- Witness for C2 (amended): a collapsed edge-2 region with value 1;
inserting 2 at `(0,0,0)` gives `at((0,0,0)) = some 2` and
`at((1,1,1)) = some 1`. -/
theorem desimplify_edge_two_preserves_region_witness :
    c2Unit.at' ⟨0, 0, 0⟩ = some 2 ∧ c2Unit.at' ⟨1, 1, 1⟩ = some 1 :=
  desimplify_edge_two_preserves_region 2 1 2 ⟨0, 0, 0⟩ ⟨1, 1, 1⟩ c2Unit
    (by decide) (by decide) (by decide) (by decide) (by decide) (by decide)
    (by decide) (by decide) (by rfl)


